import Mathlib

/-!
Formal model of the py-noisemaker effect library (noisemaker/effects.py and
noisemaker/points.py), shallowly embedded over exact rationals.

Conventions used throughout:
* an image tensor of shape [height, width, channels] is a `Grid3`
  (`List (List (List ℚ))`); a single-channel [height, width] map is a `Grid2`;
* TensorFlow float arithmetic is modelled exactly over `ℚ`;
* Python `int(x)` / `tf.cast(x, tf.int32)` truncation toward zero is `pyInt`;
* Python / TensorFlow float `%` (floored modulo, sign of divisor) is `pyMod`;
* `random.random()` draws and transcendental functions (`sin`, `cos`, `sqrt`)
  are passed in as explicit oracle parameters, since the source consumes them
  from global state / math libraries.
-/

namespace Noisemaker

attribute [local semireducible] Rat.add Rat.mul Rat.sub Rat.inv Rat.ofScientific

/-- Python `int(x)` / `tf.cast(x, tf.int32)`: truncation toward zero. -/
def pyInt (q : ℚ) : ℤ := if 0 ≤ q then ⌊q⌋ else ⌈q⌉

/-- Python and TensorFlow floating `%`: floored modulo, `a - b * ⌊a / b⌋`. -/
def pyMod (a b : ℚ) : ℚ := a - b * ⌊a / b⌋

/-- Bounds-checked list lookup at a (possibly negative) integer index,
with a default out-of-range value.  All in-model gathers are shown to stay
in range where the corresponding TensorFlow gather must not fail. -/
def getI {α : Type} (l : List α) (d : α) (i : ℤ) : α :=
  if i < 0 then d else l.getD i.toNat d

/-- Single-channel image map `[height, width]`. -/
abbrev Grid2 := List (List ℚ)

/-- Image tensor `[height, width, channels]`. -/
abbrev Grid3 := List (List (List ℚ))

/-- `tf.reduce_min` over all entries of a tensor (flattened to a list). -/
def listMin : List ℚ → ℚ
  | [] => 0
  | x :: xs => xs.foldl min x

/-- `tf.reduce_max` over all entries of a tensor (flattened to a list). -/
def listMax : List ℚ → ℚ
  | [] => 0
  | x :: xs => xs.foldl max x

/-- `normalize` (effects.py:208) at rank 2:
`(tensor - reduce_min tensor) / (reduce_max tensor - reduce_min tensor)`. -/
def normalize2 (g : Grid2) : Grid2 :=
  g.map (fun row => row.map
    (fun x => (x - listMin g.flatten) / (listMax g.flatten - listMin g.flatten)))

/-- `normalize` (effects.py:208) at rank 3 (the same source function is used
on `[h,w]` and `[h,w,c]` tensors; min/max range over every entry). -/
def normalize3 (g : Grid3) : Grid3 :=
  g.map (fun row => row.map (fun px => px.map
    (fun x => (x - listMin g.flatten.flatten) /
      (listMax g.flatten.flatten - listMin g.flatten.flatten))))

/-- `value_map` (effects.py:517): sum across the channel axis, then normalize. -/
def value_map (tensor : Grid3) : Grid2 :=
  normalize2 (tensor.map (fun row => row.map List.sum))

/-- `row_index` (effects.py:558): `[h,w]` grid whose entry at `(y,x)` is `x`. -/
def row_index (h w : ℕ) : List (List ℤ) :=
  List.replicate h ((List.range w).map Int.ofNat)

/-- `column_index` (effects.py:583): `[h,w]` grid whose entry at `(y,x)` is `y`. -/
def column_index (h w : ℕ) : List (List ℤ) :=
  (List.range h).map (fun i => List.replicate w (Int.ofNat i))

/-- The per-call Y offset drawn in `offset_index` (effects.py:626):
`int(height * .5 + random.random() * height * .5)`, with the draw `r ∈ [0,1)`
passed explicitly. -/
def offY (h : ℕ) (r : ℚ) : ℤ := pyInt ((h : ℚ) * (1/2) + r * (h : ℚ) * (1/2))

/-- The per-call X offset drawn in `offset_index` (effects.py:627):
`int(random.random() * width * .5)`. -/
def offX (w : ℕ) (r : ℚ) : ℤ := pyInt (r * (w : ℚ) * (1/2))

/-- `offset_index` (effects.py:612): stacks `(y_index + offY) % height` and
`(x_index + offX) % width` into a `[height, width, 2]` index tensor, modelled
as a grid of coordinate pairs.  `r1`, `r2` are the two `random.random()`
draws. Integer `%` on int32 tensors is floored modulo (`Int.emod`). -/
def offset_index (y_index : List (List ℤ)) (h : ℕ) (x_index : List (List ℤ)) (w : ℕ)
    (r1 r2 : ℚ) : List (List (ℤ × ℤ)) :=
  List.zipWith
    (fun ry rx => List.zipWith
      (fun y x => ((y + offY h r1).emod (h : ℤ), (x + offX w r2).emod (w : ℤ))) ry rx)
    y_index x_index

/-- `tf.gather_nd` on a rank-2 source with a `[h,w,2]` index tensor. -/
def gatherNd2 (src : Grid2) (idx : List (List (ℤ × ℤ))) : Grid2 :=
  idx.map (fun row => row.map (fun p => getI (getI src [] p.1) 0 p.2))

/-- `tf.gather_nd` on a rank-3 source with a `[h,w,2]` index tensor
(each looked-up element is a whole channel vector). -/
def gatherNd3 (src : Grid3) (idx : List (List (ℤ × ℤ))) : Grid3 :=
  idx.map (fun row => row.map (fun p => getI (getI src [] p.1) [] p.2))

/-- The integer offset grid computed inside `reindex` (effects.py:306):
`tf.cast((reference * displacement * mod + reference) % mod, tf.int32)`
with `mod = min height width`. -/
def reindex_offset (tensor : Grid3) (h w : ℕ) (displacement : ℚ) : List (List ℤ) :=
  (value_map tensor).map (fun row => row.map
    (fun v => pyInt (pyMod (v * displacement * ((min h w : ℕ) : ℚ) + v) ((min h w : ℕ) : ℚ))))

/-- `reindex` (effects.py:286): gather the tensor at `(offset, offset)`. -/
def reindex (tensor : Grid3) (h w : ℕ) (displacement : ℚ) : Grid3 :=
  gatherNd3 tensor
    ((reindex_offset tensor h w displacement).map (fun row => row.map (fun o => (o, o))))

/-- `reference_x` of `refract` (effects.py:330): `value_map(tensor) * displacement`. -/
def refract_reference_x (tensor : Grid3) (displacement : ℚ) : Grid2 :=
  (value_map tensor).map (fun row => row.map (· * displacement))

/-- `reference_y` of `refract` (effects.py:336): `reference_x` re-sampled at the
decorrelating `offset_index` (random draws `r1 r2`). -/
def refract_reference_y (tensor : Grid3) (h w : ℕ) (displacement : ℚ) (r1 r2 : ℚ) : Grid2 :=
  gatherNd2 (refract_reference_x tensor displacement)
    (offset_index (column_index h w) h (row_index h w) w r1 r2)

/-- `refract` (effects.py:313).  `r1 r2` are the random draws of the first
`offset_index` call (for the decorrelated Y reference), `r3 r4` those of the
final one (effects.py:338). -/
def refract (tensor : Grid3) (h w : ℕ) (displacement : ℚ) (r1 r2 r3 r4 : ℚ) : Grid3 :=
  gatherNd3 tensor (offset_index
    (List.zipWith (List.zipWith (fun y ry => y + pyInt (ry * (h : ℚ))))
      (column_index h w) (refract_reference_y tensor h w displacement r1 r2)) h
    (List.zipWith (List.zipWith (fun x rx => x + pyInt (rx * (w : ℚ))))
      (row_index h w) (refract_reference_x tensor displacement)) w
    r3 r4)

/-- Toroidal translation of a `[h,w,c]` tensor: the output pixel at `(i,j)`
is the input pixel at `((i+oy) mod h, (j+ox) mod w)`. -/
def toroidalShift (tensor : Grid3) (h w : ℕ) (oy ox : ℤ) : Grid3 :=
  (List.range h).map (fun (i : ℕ) => (List.range w).map
    (fun (j : ℕ) =>
      getI (getI tensor [] ((Int.ofNat i + oy).emod (h : ℤ))) [] ((Int.ofNat j + ox).emod (w : ℤ))))

/-- A concrete 2×2 single-channel tensor used as a counterexample input. -/
def t22 : Grid3 := [[[0], [1]], [[0], [0]]]

/-- Entry of a nested list at row `i`, column `j`, with a default. -/
def entryD {α : Type} (g : List (List α)) (d : α) (i j : ℕ) : α :=
  (g.getD i []).getD j d

/-- The nested list `g` is an `h × w` matrix. -/
def IsMat {α : Type} (h w : ℕ) (g : List (List α)) : Prop :=
  g.length = h ∧ ∀ r ∈ g, r.length = w

/-- The post-processing stages applied by `post_process` (effects.py:10). -/
inductive Stage : Type
  | refractS : ℚ → Stage
  | reindexS : ℚ → Stage
  | colorMapS : Stage
  | normalizeS : Stage
  | wormsS : Stage
  | derivativeS : Stage
  | sobelS : Stage
  | normalMapS : Stage
deriving DecidableEq

/-- Free tensor terms: the input grid together with the record of the stages
applied to it, used to verify the orchestration of `post_process`. -/
inductive PTensor : Type
  | base : PTensor
  | app : Stage → PTensor → PTensor
deriving DecidableEq

/-- `post_process` (effects.py:10) on free tensor terms, mirroring the
source's sequence of conditional reassignments (effects.py:36-61): refract
when `refract_range != 0`, reindex when `reindex_range != 0`, color-map when
a clut is supplied else plain normalize, then worms, derivative, sobel and
normal-map when their respective flags are set. -/
def post_process (t0 : PTensor) (refract_range reindex_range : ℚ) (clut : Bool)
    (with_worms : Bool) (with_sobel : Bool) (with_normal_map : Bool) (deriv : Bool) : PTensor :=
  let t := t0
  let t := if refract_range ≠ 0 then PTensor.app (Stage.refractS refract_range) t else t
  let t := if reindex_range ≠ 0 then PTensor.app (Stage.reindexS reindex_range) t else t
  let t := if clut then PTensor.app Stage.colorMapS t else PTensor.app Stage.normalizeS t
  let t := if with_worms then PTensor.app Stage.wormsS t else t
  let t := if deriv then PTensor.app Stage.derivativeS t else t
  let t := if with_sobel then PTensor.app Stage.sobelS t else t
  let t := if with_normal_map then PTensor.app Stage.normalMapS t else t
  t

/-- Apply a list of stages in order (head applied first). -/
def applyStages (l : List Stage) (t : PTensor) : PTensor :=
  l.foldl (fun t s => PTensor.app s t) t

/-- `WormBehavior` (effects.py:64). -/
inductive WormBehavior : Type
  | obedient
  | crosshatch
  | unruly
  | chaotic
deriving DecidableEq

/-- Python `WormBehavior(n)` (enum lookup by value, effects.py:420): raises
`ValueError` for an integer that is not a member value (values 0-3). -/
def wormBehaviorOfInt (n : ℤ) : Except String WormBehavior :=
  if n = 0 then .ok .obedient
  else if n = 1 then .ok .crosshatch
  else if n = 2 then .ok .unruly
  else if n = 3 then .ok .chaotic
  else .error "ValueError: not a valid WormBehavior"

/-- The `behavior` argument of `worms` as the source accepts it: a raw int,
an enum member, or `None` (the default that `post_process` passes). -/
inductive BehaviorArg : Type
  | intB : ℤ → BehaviorArg
  | enumB : WormBehavior → BehaviorArg
  | noneB : BehaviorArg
deriving DecidableEq

/-- The four per-agent heading-bias distributions `worms` can select
(effects.py:422-432). -/
inductive RotDist : Type
  | zerosD
  | crosshatchD
  | chaoticD
  | unrulyD
deriving DecidableEq

/-- The if/elif chain of `worms` (effects.py:422-432) mapping a resolved
`WormBehavior` to a heading-bias distribution; `unruly` matches none of the
explicit comparisons and lands in the `else` branch (the narrow normal
draw). -/
def rotOfBehavior : WormBehavior → RotDist
  | .obedient => .zerosD
  | .crosshatch => .crosshatchD
  | .chaotic => .chaoticD
  | .unruly => .unrulyD

/-- The heading-bias selection of `worms` (effects.py:419-432): a raw int is
first converted through `WormBehavior(...)` (which can raise `ValueError`);
any other value that compares unequal to `obedient`, `crosshatch` and
`chaotic` — including `None` — falls into the `else` branch. -/
def worms_rot_dist : BehaviorArg → Except String RotDist
  | .intB n => do
      let b ← wormBehaviorOfInt n
      pure (rotOfBehavior b)
  | .enumB b => pure (rotOfBehavior b)
  | .noneB => pure RotDist.unrulyD

/-- The convolution kernel catalog `ConvKernel` (effects.py:82).  The `rand`
member (a 5×5 kernel drawn once from a normal distribution at import time)
is omitted, because its weights are not fixed data; no claim involves it. -/
inductive ConvKernel : Type
  | emboss
  | shadow
  | edges
  | sharpen
  | unsharp_mask
  | invert
  | sobel_x
  | sobel_y
deriving DecidableEq

/-- The fixed weight matrices of the kernel catalog (effects.py:93-160). -/
def ConvKernel.value : ConvKernel → List (List ℚ)
  | .emboss => [[0, 2, 4], [-2, 1, 2], [-4, -2, 0]]
  | .shadow => [[0, 1, 1, 1, 0], [-1, -2, 4, 2, 1], [-1, -4, 2, 4, 1],
      [-1, -2, -4, 2, 1], [0, -1, -1, -1, 0]]
  | .edges => [[1, 2, 1], [2, -12, 2], [1, 2, 1]]
  | .sharpen => [[0, -1, 0], [-1, 5, -1], [0, -1, 0]]
  | .unsharp_mask => [[1, 4, 6, 4, 1], [4, 16, 24, 16, 4], [6, 24, -476, 24, 6],
      [4, 16, 24, 16, 4], [1, 4, 6, 4, 1]]
  | .invert => [[0, 0, 0], [0, -1, 0], [0, 0, 0]]
  | .sobel_x => [[1, 0, -1], [2, 0, -2], [1, 0, -1]]
  | .sobel_y => [[1, 2, 1], [0, 0, 0], [-1, -2, -1]]

/-- Slicing `t[y0:y1, x0:x1]` on both spatial axes; like Python slicing it
clamps at the ends and never fails. -/
def slice2 {α : Type} (g : List (List α)) (y0 y1 x0 x1 : ℕ) : List (List α) :=
  ((g.drop y0).take (y1 - y0)).map (fun r => (r.drop x0).take (x1 - x0))

/-- `tf.tile(tensor, [3, 3, 1])` (effects.py:196): 3×3 self-tiling along the
two spatial axes. -/
def tile33 {α : Type} (g : List (List α)) : List (List α) :=
  (g.map (fun r => r ++ r ++ r)) ++ (g.map (fun r => r ++ r ++ r)) ++
    (g.map (fun r => r ++ r ++ r))

/-- `tf.nn.depthwise_conv2d(..., "VALID")` (effects.py:198) on one channel:
output size `(H - k + 1) × (W - k + 1)`, entry
`(i, j) = Σ kernel[a][b] * g[i+a][j+b]`.  The source replicates the same
kernel across channels (`_conform_kernel_to_tensor`), so each channel is
transformed identically and a single channel is modelled. -/
def conv2dValid (ker : List (List ℚ)) (g : List (List ℚ)) : List (List ℚ) :=
  (List.range (g.length + 1 - ker.length)).map (fun i =>
    (List.range ((g.headD []).length + 1 - ker.length)).map (fun j =>
      ((List.range ker.length).map (fun a =>
        ((List.range ker.length).map (fun b =>
          entryD ker 0 a b * entryD g 0 (i + a) (j + b))).sum)).sum))

/-- `convolve` (effects.py:179): tile 3×3, center-crop to 2× the size,
depthwise VALID convolution, center-crop to 1× the size, normalize; the
`edges` kernel output is post-mapped by `abs(x - .5) * 2`
(effects.py:202-203).  The half-sizes are `tf.cast(shape[i] / 2, tf.int32)`,
i.e. floored division. -/
def convolve (kernel : ConvKernel) (tensor : List (List ℚ)) (h w : ℕ) : List (List ℚ) :=
  let half_height := h / 2
  let half_width := w / 2
  let t1 := tile33 tensor
  let t2 := slice2 t1 half_height (h * 2 + half_height) half_width (w * 2 + half_width)
  let t3 := conv2dValid kernel.value t2
  let t4 := slice2 t3 half_height (h + half_height) half_width (w + half_width)
  let t5 := normalize2 t4
  if kernel = ConvKernel.edges then t5.map (fun r => r.map (fun x => |x - 1/2| * 2)) else t5

/-- The per-pixel shape record of a `[h,w,c]` tensor: outer length is the
height, each inner list the channel counts along one row. -/
def dims3 (g : Grid3) : List (List ℕ) :=
  g.map (fun row => row.map List.length)

/-- The tensor `g` is a dense rectangular `h × w × c` grid. -/
def Rect3 (h w c : ℕ) (g : Grid3) : Prop :=
  g.length = h ∧ (∀ r ∈ g, r.length = w) ∧ ∀ r ∈ g, ∀ px ∈ r, px.length = c

/-- One scattered update of `tf.scatter_nd` followed by the elementwise `+=`
(effects.py:448): adds the channel vector `v` into `g` at integer position
`p` when it is within bounds, and is a no-op otherwise (the source's
positions are always in bounds; duplicate positions accumulate by addition,
matching `scatter_nd`'s summing of repeated indices). -/
def scatterAdd3 (g : Grid3) (p : ℤ × ℤ) (v : List ℚ) : Grid3 :=
  if 0 ≤ p.1 ∧ 0 ≤ p.2 then
    match g[p.1.toNat]? with
    | none => g
    | some row =>
      match row[p.2.toNat]? with
      | none => g
      | some px => g.set p.1.toNat (row.set p.2.toNat (List.zipWith (· + ·) px v))
  else g

/-- One iteration of the worm loop (effects.py:443-453): recompute the
integer agent positions, compute the triangular exposure envelope (raising
`ZeroDivisionError` when `iterations == 1`, since Python divides by
`iterations - 1`), scatter each agent's exposed color additively into the
canvas, then advance every agent along the flow field plus its heading bias,
wrapping toroidally. -/
def worms_step (h w iterations : ℕ) (sinF cosF : ℚ → ℚ) (index : Grid2)
    (colors : List (List ℚ)) (worms_rot worms_stride : List ℚ)
    (st : Grid3 × List ℚ × List ℚ) (i : ℕ) : Except String (Grid3 × List ℚ × List ℚ) :=
  let worm_positions : List (ℤ × ℤ) :=
    List.zipWith (fun y x => (pyInt y, pyInt x)) st.2.1 st.2.2
  if iterations - 1 = 0 then
    Except.error "ZeroDivisionError: division by zero"
  else
    let exposure : ℚ := 1 - |1 - (i : ℚ) / ((iterations : ℚ) - 1) * 2|
    let out2 := (List.zip worm_positions colors).foldl
      (fun o pc => scatterAdd3 o pc.1 (pc.2.map (fun cc => cc * exposure))) st.1
    let next_position : List ℚ := List.zipWith
      (fun (p : ℤ × ℤ) (r : ℚ) => getI (getI index [] p.1) 0 p.2 + r) worm_positions worms_rot
    let wy2 := List.zipWith (fun (p : ℚ × ℚ) (s : ℚ) => pyMod (p.1 + cosF p.2 * s) (h : ℚ))
      (List.zip st.2.1 next_position) worms_stride
    let wx2 := List.zipWith (fun (p : ℚ × ℚ) (s : ℚ) => pyMod (p.1 + sinF p.2 * s) (w : ℚ))
      (List.zip st.2.2 next_position) worms_stride
    Except.ok (out2, wy2, wx2)

/-- `worms` (effects.py:389).  The random draws are explicit oracle streams:
`uy`, `ux` for the uniform spawn positions (`tf.random_uniform`, values in
`[0,1)`), `un` for the stride draw (modelled as the standard-normal sample,
scaled by `stride_deviation` around `stride`), `ur` for the heading-bias
draw; `sinF`, `cosF`, `sqrtF` are the transcendental oracles and `rad1` is
`math.radians(1)`.  The trailing float-to-float `convert_image_dtype` is the
identity (TensorFlow returns the image unchanged when the dtype matches), so
the result is `normalize(out)`. -/
def worms (tensor : Grid3) (h w : ℕ) (behavior : BehaviorArg)
    (density duration stride stride_deviation bg : ℚ)
    (uy ux un ur : ℕ → ℚ) (sinF cosF sqrtF : ℚ → ℚ) (rad1 : ℚ) :
    Except String Grid3 := do
  let count : ℕ := (pyInt (((max w h : ℕ) : ℚ) * density)).toNat
  let worms_y : List ℚ := (List.range count).map (fun (i : ℕ) => uy i * (h : ℚ))
  let worms_x : List ℚ := (List.range count).map (fun (i : ℕ) => ux i * (w : ℚ))
  let worms_stride : List ℚ :=
    (List.range count).map (fun (i : ℕ) => stride + un i * stride_deviation)
  let colors : List (List ℚ) :=
    (List.zipWith (fun y x => ((pyInt y, pyInt x) : ℤ × ℤ)) worms_y worms_x).map
      (fun p => getI (getI tensor [] p.1) [] p.2)
  let dist ← worms_rot_dist behavior
  let worms_rot : List ℚ := (List.range count).map (fun (i : ℕ) =>
    match dist with
    | RotDist.zerosD => 0
    | RotDist.crosshatchD => pyMod (⌊ur i * 100⌋ : ℚ) 2 * 90
    | RotDist.chaoticD => ur i * 360
    | RotDist.unrulyD => ur i)
  let index : Grid2 := (value_map tensor).map (fun row => row.map (fun v => v * 360 * rad1))
  let iterations : ℕ := (pyInt (sqrtF ((min w h : ℕ) : ℚ) * duration)).toNat
  let out0 : Grid3 := tensor.map (fun row => row.map (fun px => px.map (fun x => x * bg)))
  let st ← (List.range iterations).foldlM
    (worms_step h w iterations sinF cosF index colors worms_rot worms_stride)
    (out0, worms_y, worms_x)
  pure (normalize3 st.1)

/-- Nearest-neighbor resize producing exactly `newH × newW`.  This models the
external `tf.image.resize_images` primitive (the `spline_order` selection of
effects.py:229-234 changes the interpolation, never the output shape). -/
def resizeNN (g : List (List ℚ)) (newH newW : ℕ) : List (List ℚ) :=
  (List.range newH).map (fun (i : ℕ) => (List.range newW).map (fun (j : ℕ) =>
    entryD g 0 (i * g.length / newH) (j * (g.headD []).length / newW)))

/-- `PointDistribution` (points.py:8). -/
inductive PointDistribution : Type
  | random
  | square
  | waffle
  | chess
  | h_hex
  | v_hex
  | spiral
  | circular
  | concentric
deriving DecidableEq

/-- `PointDistribution.is_grid` (points.py:32). -/
def PointDistribution.is_grid : PointDistribution → Bool
  | .square | .waffle | .chess | .h_hex | .v_hex => true
  | _ => false

/-- `PointDistribution.is_circular` (points.py:36). -/
def PointDistribution.is_circular : PointDistribution → Bool
  | .circular | .concentric => true
  | _ => false

/-- `square_grid` (points.py:143): an evenly spaced `freq × freq` lattice
with the center/corner half-cell drift chosen by the parity of `freq²` and
the `center` flag; `waffle` skips cells with both loop indices even, `chess`
skips cells with indices of equal parity, `h_hex`/`v_hex` add a half-cell
stagger on alternating columns/rows.  Points are produced in the source's
loop order (`a` outer, `b` inner) and wrapped by the Python float `%`. -/
def square_grid (freq : ℕ) (distrib : PointDistribution) (center : Bool)
    (center_x center_y range_x range_y width height : ℚ) : List ℚ × List ℚ :=
  let drift_amount : ℚ := (1/2) / (freq : ℚ)
  let drift : ℚ :=
    if (freq * freq) % 2 = 0 then (if center then 0 else drift_amount)
    else (if center then drift_amount else 0)
  let pts : List (ℚ × ℚ) := ((List.range freq).map (fun (a : ℕ) =>
    (List.range freq).filterMap (fun (b : ℕ) =>
      if distrib = PointDistribution.waffle ∧ b % 2 = 0 ∧ a % 2 = 0 then none
      else if distrib = PointDistribution.chess ∧ a % 2 = b % 2 then none
      else
        let x_drift : ℚ := if distrib = PointDistribution.h_hex then
          (if b % 2 = 1 then drift_amount else 0) else 0
        let y_drift : ℚ := if distrib = PointDistribution.v_hex then
          (if a % 2 = 1 then 0 else drift_amount) else 0
        some (pyMod (center_x + (((a : ℚ) / (freq : ℚ) + drift + x_drift) * range_x * 2)) width,
              pyMod (center_y + (((b : ℚ) / (freq : ℚ) + drift + y_drift) * range_y * 2)) height)))).flatten
  (pts.map Prod.fst, pts.map Prod.snd)

/-- `rand` (points.py:126): `freq²` points uniformly jittered within the
ranges around the center, toroidally wrapped.  `u` is the `random.random()`
stream and `s` the index of its next draw (two draws per point, x first);
returns the advanced stream index. -/
def rand (u : ℕ → ℚ) (s : ℕ) (freq : ℕ)
    (center_x center_y range_x range_y width height : ℚ) : (List ℚ × List ℚ) × ℕ :=
  let pts : List (ℚ × ℚ) := (List.range (freq * freq)).map (fun (i : ℕ) =>
    (pyMod (center_x + (u (s + 2 * i) * (range_x * 2) - range_x)) width,
     pyMod (center_y + (u (s + 2 * i + 1) * (range_y * 2) - range_y)) height))
  ((pts.map Prod.fst, pts.map Prod.snd), s + 2 * (freq * freq))

/-- `spiral` (points.py:189): `freq²` points along a spiral whose angular
rate is distorted by a random kink (one `random.random()` draw); `sinF`,
`cosF` are the `math.sin`/`math.cos` oracles and `rad1` is
`math.radians(1)`. -/
def spiral (u : ℕ → ℚ) (s : ℕ) (sinF cosF : ℚ → ℚ) (rad1 : ℚ) (freq : ℕ)
    (center_x center_y range_x range_y width height : ℚ) : (List ℚ × List ℚ) × ℕ :=
  let kink := u s * 100 - 50
  let count := freq * freq
  let pts : List (ℚ × ℚ) := (List.range count).map (fun (i : ℕ) =>
    let fract : ℚ := (i : ℚ) / (count : ℚ)
    let degrees := fract * 360 * rad1 * kink
    (pyMod (center_x + sinF degrees * fract * range_x) width,
     pyMod (center_y + cosF degrees * fract * range_y) height))
  ((pts.map Prod.fst, pts.map Prod.snd), s + 1)

/-- `circular` (points.py:211): the center point followed by `freq` rings of
`freq` points; the `circular` member additionally rotates ring `i` by half
the point spacing times `i` (`concentric` does not). -/
def circularPoints (sinF cosF : ℚ → ℚ) (rad1 : ℚ) (freq : ℕ) (distrib : PointDistribution)
    (center_x center_y range_x range_y width height : ℚ) : List ℚ × List ℚ :=
  let rotation : ℚ := (1 / (freq : ℚ)) * 360 * rad1
  let pts : List (ℚ × ℚ) := ((List.range freq).map (fun i0 =>
    let dist_fract : ℚ := ((i0 + 1 : ℕ) : ℚ) / (freq : ℚ)
    (List.range freq).map (fun j0 =>
      let rads0 : ℚ := ((j0 + 1 : ℕ) : ℚ) * rotation
      let rads := if distrib = PointDistribution.circular
        then rads0 + rotation * (1/2) * ((i0 + 1 : ℕ) : ℚ) else rads0
      (pyMod (center_x + sinF rads * dist_fract * range_x) width,
       pyMod (center_y + cosF rads * dist_fract * range_y) height)))).flatten
  (center_x :: pts.map Prod.fst, center_y :: pts.map Prod.snd)

/-- The `point_func` dispatch of `point_cloud` (points.py:70-79): grid
distributions use `square_grid`, `spiral` uses `spiral`, circular ones use
`circular`, everything else `rand`. -/
def point_func (u : ℕ → ℚ) (sinF cosF : ℚ → ℚ) (rad1 : ℚ) (s : ℕ)
    (freq : ℕ) (distrib : PointDistribution) (center : Bool)
    (center_x center_y range_x range_y width height : ℚ) : (List ℚ × List ℚ) × ℕ :=
  if distrib.is_grid then
    (square_grid freq distrib center center_x center_y range_x range_y width height, s)
  else if distrib = PointDistribution.spiral then
    spiral u s sinF cosF rad1 freq center_x center_y range_x range_y width height
  else if distrib.is_circular then
    (circularPoints sinF cosF rad1 freq distrib center_x center_y range_x range_y width height, s)
  else
    rand u s freq center_x center_y range_x range_y width height

/-- One produced point of an expansion, folded through the inner `for` loop
of `point_cloud` (points.py:105-121): with a pixel shape the point is
snapped to integers and deduplicated against `seen`; otherwise it is kept
as-is.  The state is `(new frontier entries, seen, xs, ys)`. -/
def point_cloud_step (shape : Option (ℕ × ℕ)) (generation : ℕ)
    (st : List (ℚ × ℚ × ℕ) × List (ℤ × ℤ) × List ℚ × List ℚ) (p : ℚ × ℚ) :
    List (ℚ × ℚ × ℕ) × List (ℤ × ℤ) × List ℚ × List ℚ :=
  match st with
  | (acc, seen, xs, ys) =>
    match shape with
    | some _ =>
      let xi := pyInt p.1
      let yi := pyInt p.2
      if (xi, yi) ∈ seen then (acc, seen, xs, ys)
      else (acc ++ [((xi : ℚ), (yi : ℚ), generation + 1)], seen ++ [(xi, yi)],
            xs ++ [(xi : ℚ)], ys ++ [(yi : ℚ)])
    | none => (acc ++ [(p.1, p.2, generation + 1)], seen, xs ++ [p.1], ys ++ [p.2])

/-- The frontier loop of `point_cloud` (points.py:93-123).  Python pops an
arbitrary element from the unordered `active_set`; it is modelled as a list
worklist popped from the head (for the properties proved here the pop order
does not affect the result).  The source's initial `seen.update(active_set)`
adds a 3-tuple that can never equal the 2-tuple membership probes, so `seen`
effectively starts empty.  `fuel` bounds the number of pops. -/
def point_cloud_loop (u : ℕ → ℚ) (sinF cosF : ℚ → ℚ) (rad1 : ℚ)
    (freq : ℕ) (distrib : PointDistribution) (shape : Option (ℕ × ℕ)) (center : Bool)
    (generations : ℕ) (width height range_x range_y : ℚ) :
    ℕ → List (ℚ × ℚ × ℕ) → List (ℤ × ℤ) → List ℚ → List ℚ → ℕ → List ℚ × List ℚ
  | 0, _, _, xs, ys, _ => (xs, ys)
  | _ + 1, [], _, xs, ys, _ => (xs, ys)
  | fuel + 1, (x_point, y_point, generation) :: rest, seen, xs, ys, s =>
    if generation ≤ generations then
      let multiplier : ℕ := max (2 * (generation - 1)) 1
      let next := point_func u sinF cosF rad1 s freq distrib center
        x_point y_point (range_x / (multiplier : ℚ)) (range_y / (multiplier : ℚ)) width height
      let points := List.zip next.1.1 next.1.2
      match points.foldl (point_cloud_step shape generation) ([], seen, xs, ys) with
      | (newActive, seen2, xs2, ys2) =>
        point_cloud_loop u sinF cosF rad1 freq distrib shape center generations
          width height range_x range_y fuel (rest ++ newActive) seen2 xs2 ys2 next.2
    else
      point_cloud_loop u sinF cosF rad1 freq distrib shape center generations
        width height range_x range_y fuel rest seen xs ys s

/-- `point_cloud` (points.py:41).  Returns `none` when `freq = 0`
(`if not freq: return`).  Grid distributions seed the frontier at `(0, 0)`,
the others at the half-ranges (points.py:85-89).  `fuel` bounds the frontier
loop; any fuel at least the number of pops performed gives the loop's
result. -/
def point_cloud (u : ℕ → ℚ) (sinF cosF : ℚ → ℚ) (rad1 : ℚ) (fuel : ℕ)
    (freq : ℕ) (distrib : PointDistribution) (shape : Option (ℕ × ℕ)) (center : Bool)
    (generations : ℕ) : Option (List ℚ × List ℚ) :=
  if freq = 0 then none
  else
    let width : ℚ := match shape with | none => 1 | some sh => (sh.2 : ℚ)
    let height : ℚ := match shape with | none => 1 | some sh => (sh.1 : ℚ)
    let range_x := width * (1/2)
    let range_y := height * (1/2)
    let seed : ℚ × ℚ × ℕ := if distrib.is_grid then (0, 0, 1) else (range_x, range_y, 1)
    some (point_cloud_loop u sinF cosF rad1 freq distrib shape center generations
      width height range_x range_y fuel [seed] [] [] [] 0)

/-- `resample` (effects.py:219), parametrized over the resize primitive
(`tf.image.resize_images` is an external collaborator): tile 3×3,
center-crop to 2× the input size, resize to `2 × new_shape`, center-crop to
`new_shape`.  The trailing float-to-float `convert_image_dtype` call is the
identity (TensorFlow returns the image unchanged when the dtype already
matches, so no saturation occurs). -/
def resample (resize : List (List ℚ) → ℕ → ℕ → List (List ℚ))
    (tensor : List (List ℚ)) (newH newW : ℕ) : List (List ℚ) :=
  let input_h := tensor.length
  let input_w := (tensor.headD []).length
  let t1 := tile33 tensor
  let t2 := slice2 t1 (input_h / 2) (input_h * 2 + input_h / 2)
    (input_w / 2) (input_w * 2 + input_w / 2)
  let t3 := resize t2 (newH * 2) (newW * 2)
  slice2 t3 (newH / 2) (newH + newH / 2) (newW / 2) (newW + newW / 2)

/-- C1 counterexample: on the concrete 2×2 grid `t22`, `reindex` with
`displacement = 0` and `refract` with `displacement = 0` (all four random
draws taken to be 0) both fail to return the input unchanged: `reindex`
collapses the grid through the value-map gather and `refract` shifts it
toroidally by the `offset_index` offsets.  Exact rational arithmetic is used,
so the discrepancy is not floating-point rounding. -/
theorem C1_counterexample :
    reindex t22 2 2 0 ≠ t22 ∧ refract t22 2 2 0 0 0 0 0 ≠ t22 := by
  decide

theorem getD_mem {α : Type} {l : List α} {i : ℕ} (d : α) (hi : i < l.length) :
    l.getD i d ∈ l := by
  rw [List.getD_eq_getElem l d hi]
  exact List.getElem_mem hi

theorem mat_ext {α : Type} {h w : ℕ} {g1 g2 : List (List α)} (d : α)
    (h1 : IsMat h w g1) (h2 : IsMat h w g2)
    (he : ∀ i j, i < h → j < w → entryD g1 d i j = entryD g2 d i j) : g1 = g2 := by
  obtain ⟨hl1, hr1⟩ := h1
  obtain ⟨hl2, hr2⟩ := h2
  apply List.ext_getElem (by rw [hl1, hl2])
  intro i hi1 hi2
  have hw1 : g1[i].length = w := hr1 _ (List.getElem_mem hi1)
  have hw2 : g2[i].length = w := hr2 _ (List.getElem_mem hi2)
  apply List.ext_getElem (by rw [hw1, hw2])
  intro j hj1 hj2
  have := he i j (by omega) (by omega)
  rwa [entryD, entryD, List.getD_eq_getElem g1 [] (by omega),
    List.getD_eq_getElem g2 [] (by omega),
    List.getD_eq_getElem _ d (by omega), List.getD_eq_getElem _ d (by omega)] at this

theorem IsMat_map {α β : Type} {h w : ℕ} {g : List (List α)} (f : α → β)
    (hg : IsMat h w g) : IsMat h w (g.map (List.map f)) := by
  obtain ⟨hl, hr⟩ := hg
  refine ⟨by simpa using hl, ?_⟩
  intro r hr'
  obtain ⟨r0, hr0, rfl⟩ := List.mem_map.mp hr'
  simpa using hr r0 hr0

theorem entryD_map {α β : Type} {h w : ℕ} {g : List (List α)} (f : α → β)
    (d : β) (d0 : α) {i j : ℕ} (hg : IsMat h w g) (hi : i < h) (hj : j < w) :
    entryD (g.map (List.map f)) d i j = f (entryD g d0 i j) := by
  obtain ⟨hl, hr⟩ := hg
  have hi' : i < g.length := by omega
  have hj' : j < g[i].length := by rw [hr _ (List.getElem_mem hi')]; omega
  rw [entryD, entryD, List.getD_eq_getElem (g.map (List.map f)) [] (by simpa using hi'),
    List.getD_eq_getElem g [] hi']
  simp only [List.getElem_map]
  rw [List.getD_eq_getElem _ d (by simpa using hj'), List.getD_eq_getElem _ d0 hj']
  simp

theorem IsMat_zipWith {α β γ : Type} {h w : ℕ} {a : List (List α)} {b : List (List β)}
    (f : α → β → γ) (ha : IsMat h w a) (hb : IsMat h w b) :
    IsMat h w (List.zipWith (List.zipWith f) a b) := by
  obtain ⟨hla, hra⟩ := ha
  obtain ⟨hlb, hrb⟩ := hb
  refine ⟨by simp [hla, hlb], ?_⟩
  intro r hr
  obtain ⟨i, hi, rfl⟩ := List.mem_iff_getElem.mp hr
  simp only [List.getElem_zipWith]
  have hi' : i < a.length := by simp at hi; omega
  have hi'' : i < b.length := by simp at hi; omega
  simp [hra _ (List.getElem_mem hi'), hrb _ (List.getElem_mem hi'')]

theorem entryD_zipWith {α β γ : Type} {h w : ℕ} {a : List (List α)} {b : List (List β)}
    (f : α → β → γ) (d : γ) (da : α) (db : β) {i j : ℕ}
    (ha : IsMat h w a) (hb : IsMat h w b) (hi : i < h) (hj : j < w) :
    entryD (List.zipWith (List.zipWith f) a b) d i j = f (entryD a da i j) (entryD b db i j) := by
  obtain ⟨hla, hra⟩ := ha
  obtain ⟨hlb, hrb⟩ := hb
  have hia : i < a.length := by omega
  have hib : i < b.length := by omega
  have hja : j < a[i].length := by rw [hra _ (List.getElem_mem hia)]; omega
  have hjb : j < b[i].length := by rw [hrb _ (List.getElem_mem hib)]; omega
  rw [entryD, List.getD_eq_getElem _ [] (by simp; omega)]
  simp only [List.getElem_zipWith]
  rw [List.getD_eq_getElem _ d (by simp; omega), List.getElem_zipWith]
  rw [entryD, entryD, List.getD_eq_getElem a [] hia, List.getD_eq_getElem b [] hib,
    List.getD_eq_getElem _ da hja, List.getD_eq_getElem _ db hjb]

theorem IsMat_row_index (h w : ℕ) : IsMat h w (row_index h w) := by
  constructor
  · simp [row_index]
  · intro r hr
    rw [List.eq_of_mem_replicate hr]
    simp

theorem IsMat_column_index (h w : ℕ) : IsMat h w (column_index h w) := by
  constructor
  · simp [column_index]
  · intro r hr
    obtain ⟨i, _, rfl⟩ := List.mem_map.mp hr
    simp

theorem entryD_row_index {h w i j : ℕ} (hi : i < h) (hj : j < w) :
    entryD (row_index h w) 0 i j = (j : ℤ) := by
  rw [entryD, row_index, List.getD_eq_getElem _ [] (by simpa using hi)]
  rw [List.getElem_replicate, List.getD_eq_getElem _ 0 (by simpa using hj)]
  simp

theorem entryD_column_index {h w i j : ℕ} (hi : i < h) (hj : j < w) :
    entryD (column_index h w) 0 i j = (i : ℤ) := by
  rw [entryD, column_index, List.getD_eq_getElem _ [] (by simpa using hi)]
  simp only [List.getElem_map, List.getElem_range]
  rw [List.getD_eq_getElem _ 0 (by simpa using hj)]
  simp

theorem IsMat_range2 {α : Type} (h w : ℕ) (F : ℕ → ℕ → α) :
    IsMat h w ((List.range h).map (fun i => (List.range w).map (F i))) := by
  constructor
  · simp
  · intro r hr
    obtain ⟨i, _, rfl⟩ := List.mem_map.mp hr
    simp

theorem entryD_range2 {α : Type} {h w i j : ℕ} (F : ℕ → ℕ → α) (d : α)
    (hi : i < h) (hj : j < w) :
    entryD ((List.range h).map (fun i => (List.range w).map (F i))) d i j = F i j := by
  rw [entryD, List.getD_eq_getElem _ [] (by simpa using hi)]
  simp only [List.getElem_map, List.getElem_range]
  rw [List.getD_eq_getElem _ d (by simpa using hj)]
  simp

theorem foldl_min_le_init (l : List ℚ) (a : ℚ) : l.foldl min a ≤ a := by
  induction l generalizing a with
  | nil => simp
  | cons x xs ih =>
    simp only [List.foldl_cons]
    exact le_trans (ih _) (min_le_left _ _)

theorem foldl_min_le_mem (l : List ℚ) (a : ℚ) : ∀ x ∈ l, l.foldl min a ≤ x := by
  induction l generalizing a with
  | nil => simp
  | cons y ys ih =>
    intro x hx
    simp only [List.foldl_cons]
    rcases List.mem_cons.mp hx with rfl | hx'
    · exact le_trans (foldl_min_le_init _ _) (min_le_right _ _)
    · exact ih _ x hx'

theorem listMin_le {l : List ℚ} : ∀ x ∈ l, listMin l ≤ x := by
  cases l with
  | nil => simp
  | cons y ys =>
    intro x hx
    rcases List.mem_cons.mp hx with rfl | hx'
    · exact foldl_min_le_init ys x
    · exact foldl_min_le_mem ys y x hx'

theorem init_le_foldl_max (l : List ℚ) (a : ℚ) : a ≤ l.foldl max a := by
  induction l generalizing a with
  | nil => simp
  | cons x xs ih =>
    simp only [List.foldl_cons]
    exact le_trans (le_max_left _ _) (ih _)

theorem mem_le_foldl_max (l : List ℚ) (a : ℚ) : ∀ x ∈ l, x ≤ l.foldl max a := by
  induction l generalizing a with
  | nil => simp
  | cons y ys ih =>
    intro x hx
    simp only [List.foldl_cons]
    rcases List.mem_cons.mp hx with rfl | hx'
    · exact le_trans (le_max_right _ _) (init_le_foldl_max _ _)
    · exact ih _ x hx'

theorem le_listMax {l : List ℚ} : ∀ x ∈ l, x ≤ listMax l := by
  cases l with
  | nil => simp
  | cons y ys =>
    intro x hx
    rcases List.mem_cons.mp hx with rfl | hx'
    · exact init_le_foldl_max ys x
    · exact mem_le_foldl_max ys y x hx'

theorem normalize2_entry_bounds {g : Grid2} :
    ∀ row ∈ normalize2 g, ∀ x ∈ row, 0 ≤ x ∧
      (listMin g.flatten < listMax g.flatten → x ≤ 1) := by
  intro row hrow x hx
  obtain ⟨r0, hr0, rfl⟩ := List.mem_map.mp hrow
  obtain ⟨y, hy, rfl⟩ := List.mem_map.mp hx
  have hymem : y ∈ g.flatten := List.mem_flatten.mpr ⟨r0, hr0, hy⟩
  have hmin : listMin g.flatten ≤ y := listMin_le y hymem
  have hmax : y ≤ listMax g.flatten := le_listMax y hymem
  constructor
  · rcases lt_or_le (listMin g.flatten) (listMax g.flatten) with hlt | hle
    · exact div_nonneg (by linarith) (by linarith)
    · have : listMax g.flatten - listMin g.flatten = 0 := by linarith
      rw [this, div_zero]
  · intro hlt
    rw [div_le_one (by linarith)]
    linarith

theorem value_map_entry_nonneg {t : Grid3} :
    ∀ row ∈ value_map t, ∀ x ∈ row, 0 ≤ x := by
  intro row hrow x hx
  exact (normalize2_entry_bounds row hrow x hx).1

theorem pyInt_zero : pyInt 0 = 0 := by simp [pyInt]

theorem pyInt_eq_zero {v : ℚ} (h0 : 0 ≤ v) (h1 : v < 1) : pyInt v = 0 := by
  rw [pyInt, if_pos h0]
  exact Int.floor_eq_zero_iff.mpr ⟨h0, h1⟩

theorem pyMod_eq_self {v m : ℚ} (h0 : 0 ≤ v) (h1 : v < m) : pyMod v m = v := by
  have hm : 0 < m := lt_of_le_of_lt h0 h1
  have hz : ⌊v / m⌋ = 0 :=
    Int.floor_eq_zero_iff.mpr ⟨div_nonneg h0 hm.le, (div_lt_one hm).mpr h1⟩
  rw [pyMod, hz]
  simp

theorem getI_default_or_mem {α : Type} (l : List α) (d : α) (i : ℤ) :
    getI l d i = d ∨ getI l d i ∈ l := by
  rw [getI]
  split
  · exact Or.inl rfl
  · by_cases hlen : i.toNat < l.length
    · exact Or.inr (getD_mem d hlen)
    · exact Or.inl (List.getD_eq_default _ _ (by omega))

theorem getI_zero {src : Grid2} (hz : ∀ r ∈ src, ∀ q ∈ r, q = 0) (a b : ℤ) :
    getI (getI src [] a) 0 b = 0 := by
  rcases getI_default_or_mem src [] a with hrow | hrow
  · rw [hrow]
    rcases getI_default_or_mem ([] : List ℚ) 0 b with hq | hq
    · exact hq
    · simp at hq
  · rcases getI_default_or_mem (getI src [] a) 0 b with hq | hq
    · exact hq
    · exact hz _ hrow _ hq

theorem IsMat_value_map {t : Grid3} {h w : ℕ} (ht : IsMat h w t) :
    IsMat h w (value_map t) := by
  unfold value_map normalize2
  exact IsMat_map _ (IsMat_map _ ht)

theorem entryD_prop {α : Type} {P : α → Prop} {h w i j : ℕ} {g : List (List α)} (d : α)
    (hg : IsMat h w g) (hi : i < h) (hj : j < w)
    (hp : ∀ r ∈ g, ∀ x ∈ r, P x) : P (entryD g d i j) := by
  obtain ⟨hl, hr⟩ := hg
  have h1 : i < g.length := by omega
  have hrow := getD_mem ([] : List α) h1
  exact hp _ hrow _ (getD_mem d (by rw [hr _ hrow]; omega))

theorem refract_reference_x_zero {t : Grid3} :
    ∀ r ∈ refract_reference_x t 0, ∀ q ∈ r, q = 0 := by
  intro r hr q hq
  simp only [refract_reference_x] at hr
  obtain ⟨r0, _, rfl⟩ := List.mem_map.mp hr
  obtain ⟨x, _, rfl⟩ := List.mem_map.mp hq
  simp

theorem refract_reference_y_zero {t : Grid3} {h w : ℕ} {r1 r2 : ℚ} :
    ∀ r ∈ refract_reference_y t h w 0 r1 r2, ∀ q ∈ r, q = 0 := by
  intro r hr q hq
  simp only [refract_reference_y, gatherNd2] at hr
  obtain ⟨r0, _, rfl⟩ := List.mem_map.mp hr
  obtain ⟨p, _, rfl⟩ := List.mem_map.mp hq
  exact getI_zero refract_reference_x_zero p.1 p.2

theorem IsMat_offset_index {h w : ℕ} {yI xI : List (List ℤ)} (r1 r2 : ℚ)
    (hy : IsMat h w yI) (hx : IsMat h w xI) :
    IsMat h w (offset_index yI h xI w r1 r2) := by
  unfold offset_index
  exact IsMat_zipWith _ hy hx

theorem entryD_offset_index {h w i j : ℕ} {yI xI : List (List ℤ)} (r1 r2 : ℚ)
    (hy : IsMat h w yI) (hx : IsMat h w xI) (hi : i < h) (hj : j < w) :
    entryD (offset_index yI h xI w r1 r2) (0, 0) i j =
      ((entryD yI 0 i j + offY h r1).emod (h : ℤ),
       (entryD xI 0 i j + offX w r2).emod (w : ℤ)) := by
  unfold offset_index
  exact entryD_zipWith _ (0, 0) 0 0 hy hx hi hj

/-- C1 amended: with `displacement = 0`, `refract` does not reduce to the
identity but to the toroidal translation of the grid by the two random
offsets drawn in the final `offset_index` call (so it is the identity only
when those offsets vanish modulo the grid dimensions), and `reindex`
collapses every pixel whose normalized value-map entry is below 1 (i.e. all
non-maximal pixels) to the input pixel at `(0, 0)`, rather than leaving the
grid unchanged. -/
theorem C1_amended (t : Grid3) (h w : ℕ) (r1 r2 r3 r4 : ℚ)
    (hh : 0 < h) (hw : 0 < w) (ht : IsMat h w t) :
    refract t h w 0 r1 r2 r3 r4 = toroidalShift t h w (offY h r3) (offX w r4) ∧
    (∀ i j, i < h → j < w → entryD (value_map t) 0 i j < 1 →
      entryD (reindex t h w 0) [] i j = getI (getI t [] 0) [] 0) := by
  have hvm : IsMat h w (value_map t) := IsMat_value_map ht
  have hcol : IsMat h w (column_index h w) := IsMat_column_index h w
  have hrw : IsMat h w (row_index h w) := IsMat_row_index h w
  have hRX : IsMat h w (refract_reference_x t 0) := by
    unfold refract_reference_x
    exact IsMat_map _ hvm
  have hRY : IsMat h w (refract_reference_y t h w 0 r1 r2) := by
    unfold refract_reference_y gatherNd2
    exact IsMat_map _ (IsMat_offset_index r1 r2 hcol hrw)
  constructor
  · have hY2 : IsMat h w (List.zipWith (List.zipWith (fun y ry => y + pyInt (ry * (h : ℚ))))
        (column_index h w) (refract_reference_y t h w 0 r1 r2)) := IsMat_zipWith _ hcol hRY
    have hX2 : IsMat h w (List.zipWith (List.zipWith (fun x rx => x + pyInt (rx * (w : ℚ))))
        (row_index h w) (refract_reference_x t 0)) := IsMat_zipWith _ hrw hRX
    have hIDX2 := IsMat_offset_index r3 r4 hY2 hX2
    unfold refract toroidalShift
    apply mat_ext ([] : List ℚ) (by unfold gatherNd3; exact IsMat_map _ hIDX2) (IsMat_range2 h w _)
    intro i j hi hj
    rw [entryD_range2 _ _ hi hj]
    unfold gatherNd3
    rw [entryD_map _ [] ((0 : ℤ), (0 : ℤ)) hIDX2 hi hj]
    rw [entryD_offset_index r3 r4 hY2 hX2 hi hj]
    rw [entryD_zipWith _ 0 0 0 hcol hRY hi hj]
    rw [entryD_zipWith _ 0 0 0 hrw hRX hi hj]
    rw [entryD_column_index hi hj, entryD_row_index hi hj]
    have hry0 : entryD (refract_reference_y t h w 0 r1 r2) 0 i j = 0 :=
      entryD_prop (P := fun q => q = 0) 0 hRY hi hj refract_reference_y_zero
    have hrx0 : entryD (refract_reference_x t 0) 0 i j = 0 :=
      entryD_prop (P := fun q => q = 0) 0 hRX hi hj refract_reference_x_zero
    rw [hry0, hrx0, zero_mul, zero_mul, pyInt_zero, add_zero, add_zero]
    simp [Int.ofNat_eq_coe]
  · intro i j hi hj hlt
    have hv0 : 0 ≤ entryD (value_map t) 0 i j :=
      entryD_prop (P := fun q => 0 ≤ q) 0 hvm hi hj value_map_entry_nonneg
    have hm1 : (1 : ℚ) ≤ ((min h w : ℕ) : ℚ) := by
      have h1 : 1 ≤ min h w := by omega
      exact_mod_cast h1
    have hOFF : IsMat h w (reindex_offset t h w 0) := by
      unfold reindex_offset
      exact IsMat_map _ hvm
    unfold reindex gatherNd3
    rw [entryD_map _ [] ((0 : ℤ), (0 : ℤ)) (IsMat_map _ hOFF) hi hj]
    rw [entryD_map _ ((0 : ℤ), (0 : ℤ)) 0 hOFF hi hj]
    unfold reindex_offset
    rw [entryD_map _ 0 0 hvm hi hj]
    have harith : entryD (value_map t) 0 i j * 0 * ((min h w : ℕ) : ℚ) +
        entryD (value_map t) 0 i j = entryD (value_map t) 0 i j := by ring
    rw [harith, pyMod_eq_self hv0 (lt_of_lt_of_le hlt hm1), pyInt_eq_zero hv0 hlt]

/-- C1 amended witness at concrete input: the 2×2 grid `t22` with all random
draws 0; `refract` equals the toroidal shift and the pixel `(1,0)` (whose
value-map entry is below 1) of `reindex` is the input's `(0,0)` pixel. -/
theorem C1_amended_witness :
    refract t22 2 2 0 0 0 0 0 = toroidalShift t22 2 2 (offY 2 0) (offX 2 0) ∧
    entryD (reindex t22 2 2 0) [] 1 0 = getI (getI t22 [] 0) [] 0 := by
  have H := C1_amended t22 2 2 0 0 0 0 (by decide) (by decide) ⟨by decide, by decide⟩
  exact ⟨H.1, H.2 1 0 (by decide) (by decide) (by decide)⟩

theorem foldl_min_map_add (l : List ℚ) (a c : ℚ) :
    (l.map (fun x => x + c)).foldl min (a + c) = l.foldl min a + c := by
  induction l generalizing a with
  | nil => simp
  | cons y ys ih =>
    simp only [List.map_cons, List.foldl_cons]
    rw [min_add_add_right, ih]

theorem foldl_max_map_add (l : List ℚ) (a c : ℚ) :
    (l.map (fun x => x + c)).foldl max (a + c) = l.foldl max a + c := by
  induction l generalizing a with
  | nil => simp
  | cons y ys ih =>
    simp only [List.map_cons, List.foldl_cons]
    rw [max_add_add_right, ih]

theorem listMin_map_add {l : List ℚ} (c : ℚ) (hl : l ≠ []) :
    listMin (l.map (fun x => x + c)) = listMin l + c := by
  cases l with
  | nil => exact absurd rfl hl
  | cons y ys =>
    simp only [List.map_cons, listMin]
    exact foldl_min_map_add ys y c

theorem listMax_map_add {l : List ℚ} (c : ℚ) (hl : l ≠ []) :
    listMax (l.map (fun x => x + c)) = listMax l + c := by
  cases l with
  | nil => exact absurd rfl hl
  | cons y ys =>
    simp only [List.map_cons, listMax]
    exact foldl_max_map_add ys y c

/-- C4: for every grid whose minimum and maximum differ (non-degenerate
input), every entry of `normalize(grid)` lies in `[0, 1]`, and
`normalize(grid + c) = normalize(grid)` for every constant `c` added
uniformly to the input. -/
theorem C4_normalize (g : Grid2) (c : ℚ)
    (hne : listMin g.flatten < listMax g.flatten) :
    (∀ row ∈ normalize2 g, ∀ x ∈ row, 0 ≤ x ∧ x ≤ 1) ∧
    normalize2 (g.map (List.map (fun x => x + c))) = normalize2 g := by
  constructor
  · intro row hrow x hx
    obtain ⟨h0, h1⟩ := normalize2_entry_bounds row hrow x hx
    exact ⟨h0, h1 hne⟩
  · have hnil : g.flatten ≠ [] := by
      intro h0
      rw [h0] at hne
      simp [listMin, listMax] at hne
    have hflat : (g.map (List.map (fun x => x + c))).flatten = g.flatten.map (fun x => x + c) := by
      simp [List.map_flatten]
    unfold normalize2
    rw [hflat, listMin_map_add c hnil, listMax_map_add c hnil, List.map_map]
    simp only [Function.comp_def, List.map_map]
    congr 1
    funext x
    congr 1
    funext y
    ring

/-- C4 witness at the concrete grid `[[0, 1]]` and constant `c = 5`. -/
theorem C4_witness :
    (∀ row ∈ normalize2 [[0, 1]], ∀ x ∈ row, 0 ≤ x ∧ x ≤ 1) ∧
    normalize2 ([[(0 : ℚ), 1]].map (List.map (fun x => x + 5))) = normalize2 [[0, 1]] :=
  C4_normalize [[0, 1]] 5 (by decide)

theorem of_mem_zipWith {α β γ : Type} {f : α → β → γ} {as : List α} {bs : List β} {x : γ}
    (hx : x ∈ List.zipWith f as bs) : ∃ a ∈ as, ∃ b ∈ bs, x = f a b := by
  obtain ⟨i, hi, rfl⟩ := List.mem_iff_getElem.mp hx
  have hia : i < as.length := by simp at hi; omega
  have hib : i < bs.length := by simp at hi; omega
  rw [List.getElem_zipWith]
  exact ⟨_, List.getElem_mem hia, _, List.getElem_mem hib, rfl⟩

/-- C10: for every pair of integer index grids and positive `height`, `width`,
every coordinate pair produced by `offset_index` lies in
`[0, height) × [0, width)` (the per-call random offsets are reduced modulo
the bounds); in particular the index grids consumed by the final gather of
`refract` are always within the grid's bounds, for any displacement and any
random draws. -/
theorem C10_offset_index_bounds (h w : ℕ) (hh : 0 < h) (hw : 0 < w) :
    (∀ (yI xI : List (List ℤ)) (r1 r2 : ℚ), ∀ row ∈ offset_index yI h xI w r1 r2, ∀ p ∈ row,
      0 ≤ p.1 ∧ p.1 < (h : ℤ) ∧ 0 ≤ p.2 ∧ p.2 < (w : ℤ)) ∧
    (∀ (t : Grid3) (d r1 r2 r3 r4 : ℚ), ∀ row ∈ offset_index
        (List.zipWith (List.zipWith (fun y ry => y + pyInt (ry * (h : ℚ))))
          (column_index h w) (refract_reference_y t h w d r1 r2)) h
        (List.zipWith (List.zipWith (fun x rx => x + pyInt (rx * (w : ℚ))))
          (row_index h w) (refract_reference_x t d)) w r3 r4, ∀ p ∈ row,
      0 ≤ p.1 ∧ p.1 < (h : ℤ) ∧ 0 ≤ p.2 ∧ p.2 < (w : ℤ)) := by
  have hzh : (h : ℤ) ≠ 0 := by exact_mod_cast Nat.pos_iff_ne_zero.mp hh
  have hzw : (w : ℤ) ≠ 0 := by exact_mod_cast Nat.pos_iff_ne_zero.mp hw
  have main : ∀ (yI xI : List (List ℤ)) (r1 r2 : ℚ), ∀ row ∈ offset_index yI h xI w r1 r2,
      ∀ p ∈ row, 0 ≤ p.1 ∧ p.1 < (h : ℤ) ∧ 0 ≤ p.2 ∧ p.2 < (w : ℤ) := by
    intro yI xI r1 r2 row hrow p hp
    unfold offset_index at hrow
    obtain ⟨ry, _, rx, _, rfl⟩ := of_mem_zipWith hrow
    obtain ⟨y, _, x, _, rfl⟩ := of_mem_zipWith hp
    refine ⟨Int.emod_nonneg _ hzh, Int.emod_lt_of_pos _ (by exact_mod_cast hh),
      Int.emod_nonneg _ hzw, Int.emod_lt_of_pos _ (by exact_mod_cast hw)⟩
  exact ⟨main, fun t d r1 r2 r3 r4 => main _ _ r3 r4⟩

/-- C10 witness: a concrete instance of the bounds at `h = w = 2` with index
grids containing out-of-range and negative raw indices. -/
theorem C10_witness :
    (0 : ℤ) ≤ ((0 : ℤ), (1 : ℤ)).1 ∧ ((0 : ℤ), (1 : ℤ)).1 < (2 : ℤ) ∧
    (0 : ℤ) ≤ ((0 : ℤ), (1 : ℤ)).2 ∧ ((0 : ℤ), (1 : ℤ)).2 < (2 : ℤ) :=
  (C10_offset_index_bounds 2 2 (by decide) (by decide)).1 [[5, -3]] [[2, 7]] 0 0
    [((0 : ℤ), (0 : ℤ)), ((0 : ℤ), (1 : ℤ))] (by decide) ((0 : ℤ), (1 : ℤ)) (by decide)

/-- C5: `post_process` applies its stages in the fixed order refract,
reindex, color-map (when a clut is supplied) or plain normalize (when not),
worms, derivative, sobel, normal-map; refract and reindex are applied
exactly when their range parameter is nonzero, and worms, derivative, sobel
and normal-map exactly when their boolean options are set. -/
theorem C5_post_process_order (t0 : PTensor) (rr ri : ℚ) (clut ww ws wn dv : Bool) :
    post_process t0 rr ri clut ww ws wn dv =
      applyStages
        ((if rr ≠ 0 then [Stage.refractS rr] else []) ++
         (if ri ≠ 0 then [Stage.reindexS ri] else []) ++
         (if clut then [Stage.colorMapS] else [Stage.normalizeS]) ++
         (if ww then [Stage.wormsS] else []) ++
         (if dv then [Stage.derivativeS] else []) ++
         (if ws then [Stage.sobelS] else []) ++
         (if wn then [Stage.normalMapS] else [])) t0 := by
  unfold post_process applyStages
  by_cases h1 : rr ≠ 0 <;> by_cases h2 : ri ≠ 0 <;>
    cases clut <;> cases ww <;> cases dv <;> cases ws <;> cases wn <;>
    simp [h1, h2]

/-- C7: when `worms` receives a behavior value that is not a recognized enum
member and not an int — such as `None` — it does not fail and selects the
`unruly` heading-bias distribution (the `else` branch), not the obedient,
crosshatch or chaotic one; an unknown raw integer behavior value fails with
an invalid-configuration `ValueError`. -/
theorem C7_worms_behavior :
    worms_rot_dist BehaviorArg.noneB = Except.ok RotDist.unrulyD ∧
    (∀ n : ℤ, n ≠ 0 → n ≠ 1 → n ≠ 2 → n ≠ 3 →
      worms_rot_dist (BehaviorArg.intB n) =
        Except.error "ValueError: not a valid WormBehavior") := by
  refine ⟨rfl, ?_⟩
  intro n h0 h1 h2 h3
  simp [worms_rot_dist, wormBehaviorOfInt, h0, h1, h2, h3]

/-- C7 witness: the unknown raw integer 7 as a behavior value. -/
theorem C7_witness :
    worms_rot_dist BehaviorArg.noneB = Except.ok RotDist.unrulyD ∧
    worms_rot_dist (BehaviorArg.intB 7) =
      Except.error "ValueError: not a valid WormBehavior" :=
  ⟨C7_worms_behavior.1,
    C7_worms_behavior.2 7 (by decide) (by decide) (by decide) (by decide)⟩

theorem headD_mem {α : Type} {l : List α} (d : α) (hl : l ≠ []) : l.headD d ∈ l := by
  cases l with
  | nil => exact absurd rfl hl
  | cons a t => simp

theorem IsMat_tile33 {α : Type} {h w : ℕ} {g : List (List α)} (hg : IsMat h w g) :
    IsMat (3 * h) (3 * w) (tile33 g) := by
  obtain ⟨hl, hr⟩ := hg
  constructor
  · simp only [tile33, List.length_append, List.length_map, hl]
    omega
  · intro r hrm
    simp only [tile33, List.mem_append] at hrm
    rcases hrm with (h1 | h2) | h3
    · obtain ⟨r0, hr0, rfl⟩ := List.mem_map.mp h1
      simp only [List.length_append, hr r0 hr0]
      omega
    · obtain ⟨r0, hr0, rfl⟩ := List.mem_map.mp h2
      simp only [List.length_append, hr r0 hr0]
      omega
    · obtain ⟨r0, hr0, rfl⟩ := List.mem_map.mp h3
      simp only [List.length_append, hr r0 hr0]
      omega

theorem IsMat_slice2 {α : Type} {a b : ℕ} {g : List (List α)} (hg : IsMat a b g)
    (y0 y1 x0 x1 : ℕ) :
    IsMat (min (y1 - y0) (a - y0)) (min (x1 - x0) (b - x0)) (slice2 g y0 y1 x0 x1) := by
  obtain ⟨hl, hr⟩ := hg
  constructor
  · simp [slice2, hl]
  · intro r hrm
    simp only [slice2, List.mem_map] at hrm
    obtain ⟨r0, hr0, rfl⟩ := hrm
    have hmem : r0 ∈ g := List.drop_subset _ _ (List.take_subset _ _ hr0)
    simp [hr r0 hmem]

theorem IsMat_conv2dValid {a b : ℕ} {g : List (List ℚ)} (ker : List (List ℚ))
    (hg : IsMat a b g) (ha : 0 < a) :
    IsMat (a + 1 - ker.length) (b + 1 - ker.length) (conv2dValid ker g) := by
  obtain ⟨hl, hr⟩ := hg
  have hne : g ≠ [] := by
    intro h0
    rw [h0] at hl
    simp at hl
    omega
  have hW : (g.headD []).length = b := hr _ (headD_mem [] hne)
  unfold conv2dValid
  rw [hl, hW]
  exact IsMat_range2 _ _ _

theorem IsMat_normalize2 {h w : ℕ} {g : Grid2} (hg : IsMat h w g) :
    IsMat h w (normalize2 g) := by
  unfold normalize2
  exact IsMat_map _ hg

theorem IsMat_resizeNN (g : List (List ℚ)) (a b : ℕ) : IsMat a b (resizeNN g a b) := by
  unfold resizeNN
  exact IsMat_range2 _ _ _

/-- C2 counterexample: the all-zero 5×5 grid with the 5×5 `unsharp_mask`
kernel.  Both spatial dimensions (5) equal the kernel size, yet `convolve`
returns a grid of height 4, not 5: after the VALID convolution shrinks the
2× halo buffer to `2·5 - 5 + 1 = 6` rows, the final center crop
`[2 : 5 + 2]` clamps at 6 and keeps only 4 rows. -/
theorem C2_counterexample :
    (List.replicate 5 (List.replicate 5 (0 : ℚ))).length = 5 ∧
    (∀ r ∈ List.replicate 5 (List.replicate 5 (0 : ℚ)), r.length = 5) ∧
    ConvKernel.unsharp_mask.value.length = 5 ∧
    (convolve ConvKernel.unsharp_mask (List.replicate 5 (List.replicate 5 0)) 5 5).length ≠ 5 := by
  refine ⟨by decide, by decide, by decide, by decide⟩

/-- C2 amended: `convolve` returns a grid of exactly the input's shape
whenever both spatial dimensions are at least `2k - 3` for kernel side `k`
(equal to the kernel size 3 for the 3×3 kernels, but 7 for the 5×5 kernels —
inputs of size 5 or 6 shrink); and `resample` returns exactly the requested
spatial shape for every input grid and every resize primitive satisfying the
TensorFlow resize shape contract. -/
theorem C2_amended (k : ConvKernel) (g : List (List ℚ)) (h w : ℕ)
    (hg : IsMat h w g)
    (hh : 2 * k.value.length - 3 ≤ h) (hw : 2 * k.value.length - 3 ≤ w) :
    IsMat h w (convolve k g h w) ∧
    (∀ (resize : List (List ℚ) → ℕ → ℕ → List (List ℚ)),
      (∀ g' a b, IsMat a b (resize g' a b)) →
      ∀ (t : List (List ℚ)) (H W : ℕ), IsMat H W (resample resize t H W)) := by
  have hk : 3 ≤ k.value.length := by cases k <;> decide
  constructor
  · simp only [convolve]
    have h1 := IsMat_tile33 hg
    have h2 := IsMat_slice2 h1 (h / 2) (h * 2 + h / 2) (w / 2) (w * 2 + w / 2)
    have e1 : min (h * 2 + h / 2 - h / 2) (3 * h - h / 2) = 2 * h := by omega
    have e2 : min (w * 2 + w / 2 - w / 2) (3 * w - w / 2) = 2 * w := by omega
    rw [e1, e2] at h2
    have h3 := IsMat_conv2dValid k.value h2 (by omega)
    have h4 := IsMat_slice2 h3 (h / 2) (h + h / 2) (w / 2) (w + w / 2)
    have e3 : min (h + h / 2 - h / 2) (2 * h + 1 - k.value.length - h / 2) = h := by omega
    have e4 : min (w + w / 2 - w / 2) (2 * w + 1 - k.value.length - w / 2) = w := by omega
    rw [e3, e4] at h4
    have h5 := IsMat_normalize2 h4
    split
    · exact IsMat_map _ h5
    · exact h5
  · intro resize hres t H W
    simp only [resample]
    have h3 := hres (slice2 (tile33 t) (t.length / 2) (t.length * 2 + t.length / 2)
      ((t.headD []).length / 2) ((t.headD []).length * 2 + (t.headD []).length / 2))
      (H * 2) (W * 2)
    have h4 := IsMat_slice2 h3 (H / 2) (H + H / 2) (W / 2) (W + W / 2)
    have e5 : min (H + H / 2 - H / 2) (H * 2 - H / 2) = H := by omega
    have e6 : min (W + W / 2 - W / 2) (W * 2 - W / 2) = W := by omega
    rw [e5, e6] at h4
    exact h4

/-- C2 amended witness: the 3×3 `sharpen` kernel on a 3×3 grid (so dimension
`3 ≥ 2·3 - 3`), and `resample` with the nearest-neighbor resize on a 1×1
grid resized to 2×2. -/
theorem C2_witness :
    IsMat 3 3 (convolve ConvKernel.sharpen (List.replicate 3 (List.replicate 3 (0 : ℚ))) 3 3) ∧
    IsMat 2 2 (resample resizeNN [[(1 : ℚ)]] 2 2) := by
  have H := C2_amended ConvKernel.sharpen (List.replicate 3 (List.replicate 3 (0 : ℚ))) 3 3
    ⟨by decide, by decide⟩ (by decide) (by decide)
  exact ⟨H.1, H.2 resizeNN IsMat_resizeNN [[(1 : ℚ)]] 2 2⟩

/-- C3: `point_cloud` with `freq = 2`, `distrib = square`, `generations = 1`
on a 4×4 pixel shape returns exactly the four points
`(0,0), (0,2), (2,0), (2,2)` — the evenly spaced 2×2 lattice — and with
`distrib = waffle` and the same parameters exactly the three of those points
whose lattice cell `(a, b)` has at least one odd index (the cell `(0, 0)`,
with both indices even, is skipped).  The grid path draws no randomness and
uses no transcendental function, so the oracle parameters are irrelevant
(instantiated to the zero stream); fuel 64 exceeds the five frontier pops
performed. -/
theorem C3_point_cloud :
    point_cloud (fun _ => 0) (fun _ => 0) (fun _ => 0) 0 64 2
      PointDistribution.square (some (4, 4)) true 1 =
      some ([0, 0, 2, 2], [0, 2, 0, 2]) ∧
    point_cloud (fun _ => 0) (fun _ => 0) (fun _ => 0) 0 64 2
      PointDistribution.waffle (some (4, 4)) true 1 =
      some ([0, 2, 2], [2, 0, 2]) := by
  constructor <;> decide

theorem worms_step_error {h w iterations : ℕ} {sinF cosF : ℚ → ℚ} {index : Grid2}
    {colors : List (List ℚ)} {worms_rot worms_stride : List ℚ}
    (hit : iterations - 1 = 0) (st : Grid3 × List ℚ × List ℚ) (i : ℕ) :
    worms_step h w iterations sinF cosF index colors worms_rot worms_stride st i =
      Except.error "ZeroDivisionError: division by zero" := by
  unfold worms_step
  rw [if_pos hit]

theorem worms_step_ok {h w iterations : ℕ} {sinF cosF : ℚ → ℚ} {index : Grid2}
    {colors : List (List ℚ)} {worms_rot worms_stride : List ℚ}
    (hit : iterations - 1 ≠ 0) (st : Grid3 × List ℚ × List ℚ) (i : ℕ) :
    ∃ st', worms_step h w iterations sinF cosF index colors worms_rot worms_stride st i =
      Except.ok st' := by
  unfold worms_step
  rw [if_neg hit]
  exact ⟨_, rfl⟩

theorem foldlM_worms_ok {h w iterations : ℕ} {sinF cosF : ℚ → ℚ} {index : Grid2}
    {colors : List (List ℚ)} {worms_rot worms_stride : List ℚ}
    (hit : iterations - 1 ≠ 0) :
    ∀ (l : List ℕ) (st : Grid3 × List ℚ × List ℚ),
      ∃ st', List.foldlM
        (worms_step h w iterations sinF cosF index colors worms_rot worms_stride) st l =
        Except.ok st' := by
  intro l
  induction l with
  | nil => intro st; exact ⟨st, rfl⟩
  | cons x xs ih =>
    intro st
    obtain ⟨st1, hst1⟩ := worms_step_ok hit st x
    obtain ⟨st', hst'⟩ := ih st1
    refine ⟨st', ?_⟩
    rw [List.foldlM_cons, hst1]
    exact hst'

/-- C9: `worms` raises `ZeroDivisionError` whenever the computed iteration
count `int(sqrt(min(width, height)) * duration)` equals exactly 1, because
the exposure envelope of the first loop iteration divides by
`iterations - 1`; for every other iteration count (0, or at least 2) and a
valid behavior value the function completes normally. -/
theorem C9_worms_division (tensor : Grid3) (h w : ℕ) (behavior : BehaviorArg)
    (density duration stride stride_deviation bg : ℚ)
    (uy ux un ur : ℕ → ℚ) (sinF cosF sqrtF : ℚ → ℚ) (rad1 : ℚ)
    (hbeh : ∃ d, worms_rot_dist behavior = Except.ok d) :
    (pyInt (sqrtF ((min w h : ℕ) : ℚ) * duration) = 1 →
      worms tensor h w behavior density duration stride stride_deviation bg
        uy ux un ur sinF cosF sqrtF rad1 =
        Except.error "ZeroDivisionError: division by zero") ∧
    (pyInt (sqrtF ((min w h : ℕ) : ℚ) * duration) ≠ 1 →
      ∃ out, worms tensor h w behavior density duration stride stride_deviation bg
        uy ux un ur sinF cosF sqrtF rad1 = Except.ok out) := by
  obtain ⟨d, hd⟩ := hbeh
  constructor
  · intro h1
    unfold worms
    rw [hd, h1]
    dsimp only [Except.instMonad, Bind.bind, Except.bind]
    rw [show List.range (Int.toNat 1) = [0] from rfl, List.foldlM_cons,
      worms_step_error (by omega) _ 0]
    rfl
  · intro h1
    unfold worms
    rw [hd]
    dsimp only [Except.instMonad, Bind.bind, Except.bind]
    by_cases h0 : (pyInt (sqrtF ((min w h : ℕ) : ℚ) * duration)).toNat = 0
    · rw [h0]
      exact ⟨_, rfl⟩
    · have hit : (pyInt (sqrtF ((min w h : ℕ) : ℚ) * duration)).toNat - 1 ≠ 0 := by omega
      obtain ⟨st', hst'⟩ := foldlM_worms_ok hit (List.range _) _
      rw [hst']
      exact ⟨_, rfl⟩

/-- C9 witness: on the 2×2 grid with `duration = 1` and the square-root
oracle returning `3/2` (a rational stand-in for `sqrt 2 ≈ 1.414`), the
iteration count is `int(3/2) = 1` and `worms` raises; with `duration = 2`
and a square root of 1 the count is 2 and `worms` completes. -/
theorem C9_witness :
    worms t22 2 2 (BehaviorArg.enumB WormBehavior.obedient) 1 1 1 (1/20) (1/2)
      (fun _ => 0) (fun _ => 0) (fun _ => 0) (fun _ => 0)
      (fun _ => 0) (fun _ => 0) (fun _ => 3/2) 0 =
      Except.error "ZeroDivisionError: division by zero" ∧
    ((worms t22 2 2 (BehaviorArg.enumB WormBehavior.obedient) 1 2 1 (1/20) (1/2)
      (fun _ => 0) (fun _ => 0) (fun _ => 0) (fun _ => 0)
      (fun _ => 0) (fun _ => 0) (fun _ => 1) 0).isOk = true) := by
  constructor
  · exact (C9_worms_division t22 2 2 (BehaviorArg.enumB WormBehavior.obedient) 1 1 1 (1/20)
      (1/2) (fun _ => 0) (fun _ => 0) (fun _ => 0) (fun _ => 0) (fun _ => 0) (fun _ => 0)
      (fun _ => 3/2) 0 ⟨RotDist.zerosD, rfl⟩).1 (by decide)
  · obtain ⟨out, hout⟩ := (C9_worms_division t22 2 2 (BehaviorArg.enumB WormBehavior.obedient)
      1 2 1 (1/20) (1/2) (fun _ => 0) (fun _ => 0) (fun _ => 0) (fun _ => 0) (fun _ => 0)
      (fun _ => 0) (fun _ => 1) 0 ⟨RotDist.zerosD, rfl⟩).2 (by decide)
    rw [hout]
    rfl

theorem rect_map3 {h w c : ℕ} {g : Grid3} (f : ℚ → ℚ) (hg : Rect3 h w c g) :
    Rect3 h w c (g.map (fun row => row.map (fun px => px.map f))) := by
  obtain ⟨hl, hr, hc⟩ := hg
  refine ⟨by simpa using hl, ?_, ?_⟩
  · intro r hrm
    obtain ⟨r0, hr0, rfl⟩ := List.mem_map.mp hrm
    simpa using hr _ hr0
  · intro r hrm px hpxm
    obtain ⟨r0, hr0, rfl⟩ := List.mem_map.mp hrm
    obtain ⟨px0, hpx0, rfl⟩ := List.mem_map.mp hpxm
    simpa using hc _ hr0 _ hpx0

theorem dims3_of_rect {h w c : ℕ} {g : Grid3} (hg : Rect3 h w c g) :
    dims3 g = List.replicate h (List.replicate w c) := by
  obtain ⟨hl, hr, hc⟩ := hg
  apply List.ext_getElem
  · simp [dims3, hl]
  · intro i hi1 hi2
    have hig : i < g.length := by simp [dims3] at hi1; omega
    simp only [dims3, List.getElem_map, List.getElem_replicate]
    have hmem : g[i] ∈ g := List.getElem_mem hig
    apply List.ext_getElem
    · simp [hr _ hmem]
    · intro j hj1 hj2
      have hjr : j < g[i].length := by simp at hj1; omega
      simp only [List.getElem_map, List.getElem_replicate]
      exact hc _ hmem _ (List.getElem_mem hjr)

theorem rect_scatterAdd3 {h w c : ℕ} {g : Grid3} (hg : Rect3 h w c g)
    (p : ℤ × ℤ) {v : List ℚ} (hv : v.length = c) : Rect3 h w c (scatterAdd3 g p v) := by
  obtain ⟨hl, hr, hc⟩ := hg
  unfold scatterAdd3
  split
  · split
    · exact ⟨hl, hr, hc⟩
    · next row hrow =>
      split
      · exact ⟨hl, hr, hc⟩
      · next px hpx =>
        obtain ⟨hlt, heq⟩ := List.getElem?_eq_some_iff.mp hrow
        have hrowmem : row ∈ g := heq ▸ List.getElem_mem hlt
        obtain ⟨hlt2, heq2⟩ := List.getElem?_eq_some_iff.mp hpx
        have hpxmem : px ∈ row := heq2 ▸ List.getElem_mem hlt2
        refine ⟨by simp [hl], ?_, ?_⟩
        · intro r hrm
          rcases List.mem_or_eq_of_mem_set hrm with hin | hEq
          · exact hr _ hin
          · rw [hEq]
            simp [hr _ hrowmem]
        · intro r hrm px' hpx'
          rcases List.mem_or_eq_of_mem_set hrm with hin | hEq
          · exact hc _ hin _ hpx'
          · rw [hEq] at hpx'
            rcases List.mem_or_eq_of_mem_set hpx' with hin2 | hEq2
            · exact hc _ hrowmem _ hin2
            · rw [hEq2]
              simp [hc _ hrowmem _ hpxmem, hv]
  · exact ⟨hl, hr, hc⟩

theorem rect_scatter_foldl {h w c : ℕ} (e : ℚ) :
    ∀ (L : List ((ℤ × ℤ) × List ℚ)) (out : Grid3), Rect3 h w c out →
      (∀ pc ∈ L, pc.2.length = c) →
      Rect3 h w c (L.foldl
        (fun o pc => scatterAdd3 o pc.1 (pc.2.map (fun cc => cc * e))) out) := by
  intro L
  induction L with
  | nil => intro out hout _; exact hout
  | cons pc L ih =>
    intro out hout hL
    simp only [List.foldl_cons]
    apply ih
    · apply rect_scatterAdd3 hout
      rw [List.length_map]
      exact hL pc (by simp)
    · intro pc' hpc'
      exact hL pc' (List.mem_cons_of_mem _ hpc')

theorem foldlM_except_preserve {α : Type} {P : α → Prop} {f : α → ℕ → Except String α}
    (hf : ∀ st i st', P st → f st i = Except.ok st' → P st') :
    ∀ (l : List ℕ) (st st' : α), P st → List.foldlM f st l = Except.ok st' → P st' := by
  intro l
  induction l with
  | nil =>
    intro st st' hP hfold
    simp only [List.foldlM_nil] at hfold
    cases hfold
    exact hP
  | cons x xs ih =>
    intro st st' hP hfold
    rw [List.foldlM_cons] at hfold
    cases hfx : f st x with
    | error e =>
      rw [hfx] at hfold
      dsimp only [Except.instMonad, Bind.bind, Except.bind] at hfold
      exact Except.noConfusion hfold
    | ok st1 =>
      rw [hfx] at hfold
      dsimp only [Except.instMonad, Bind.bind, Except.bind] at hfold
      exact ih st1 st' (hf st x st1 hP hfx) hfold

theorem worms_step_rect {h w c iterations : ℕ} {sinF cosF : ℚ → ℚ} {index : Grid2}
    {colors : List (List ℚ)} {worms_rot worms_stride : List ℚ}
    (hcolors : ∀ v ∈ colors, v.length = c) :
    ∀ (st : Grid3 × List ℚ × List ℚ) (i : ℕ) (st' : Grid3 × List ℚ × List ℚ),
      Rect3 h w c st.1 →
      worms_step h w iterations sinF cosF index colors worms_rot worms_stride st i =
        Except.ok st' → Rect3 h w c st'.1 := by
  intro st i st' hst hok
  unfold worms_step at hok
  by_cases hit : iterations - 1 = 0
  · rw [if_pos hit] at hok
    exact Except.noConfusion hok
  · rw [if_neg hit] at hok
    have hEq := Except.ok.inj hok
    rw [← hEq]
    apply rect_scatter_foldl _ _ _ hst
    intro pc hpc
    exact hcolors _ (List.of_mem_zip hpc).2

theorem worms_colors_length {tensor : Grid3} {h w c : ℕ} (hh : 0 < h) (hw : 0 < w)
    (hrect : Rect3 h w c tensor) {uy ux : ℕ → ℚ}
    (huy : ∀ i, 0 ≤ uy i ∧ uy i < 1) (hux : ∀ i, 0 ≤ ux i ∧ ux i < 1) (count : ℕ) :
    ∀ v ∈ (List.zipWith (fun y x => ((pyInt y, pyInt x) : ℤ × ℤ))
        ((List.range count).map (fun (i : ℕ) => uy i * (h : ℚ)))
        ((List.range count).map (fun (i : ℕ) => ux i * (w : ℚ)))).map
      (fun p => getI (getI tensor [] p.1) [] p.2), v.length = c := by
  intro v hv
  obtain ⟨p, hp, rfl⟩ := List.mem_map.mp hv
  obtain ⟨y, hy, x, hx, rfl⟩ := of_mem_zipWith hp
  obtain ⟨i, _, rfl⟩ := List.mem_map.mp hy
  obtain ⟨j, _, rfl⟩ := List.mem_map.mp hx
  obtain ⟨hl, hr, hc⟩ := hrect
  have hy0 : 0 ≤ uy i * (h : ℚ) := mul_nonneg (huy i).1 (by positivity)
  have hy1 : uy i * (h : ℚ) < h := by
    have h1 := (huy i).2
    have hpos : (0 : ℚ) < h := by exact_mod_cast hh
    calc uy i * (h : ℚ) < 1 * h := mul_lt_mul_of_pos_right h1 hpos
    _ = h := one_mul _
  have hx0 : 0 ≤ ux j * (w : ℚ) := mul_nonneg (hux j).1 (by positivity)
  have hx1 : ux j * (w : ℚ) < w := by
    have h1 := (hux j).2
    have hpos : (0 : ℚ) < w := by exact_mod_cast hw
    calc ux j * (w : ℚ) < 1 * w := mul_lt_mul_of_pos_right h1 hpos
    _ = w := one_mul _
  have hfy : 0 ≤ pyInt (uy i * (h : ℚ)) ∧ pyInt (uy i * (h : ℚ)) < (h : ℤ) := by
    rw [pyInt, if_pos hy0]
    exact ⟨Int.floor_nonneg.mpr hy0, Int.floor_lt.mpr (by exact_mod_cast hy1)⟩
  have hfx : 0 ≤ pyInt (ux j * (w : ℚ)) ∧ pyInt (ux j * (w : ℚ)) < (w : ℤ) := by
    rw [pyInt, if_pos hx0]
    exact ⟨Int.floor_nonneg.mpr hx0, Int.floor_lt.mpr (by exact_mod_cast hx1)⟩
  rw [getI, if_neg (by omega), getI, if_neg (by omega)]
  have hrowmem : (tensor.getD (pyInt (uy i * (h : ℚ))).toNat []) ∈ tensor := by
    apply getD_mem
    omega
  apply hc _ hrowmem
  apply getD_mem
  rw [hr _ hrowmem]
  omega

theorem except_bind_ok {α β : Type} {X : Except String α} {k : α → Except String β} {out : β}
    (hok : Except.bind X k = Except.ok out) : ∃ a, X = Except.ok a ∧ k a = Except.ok out := by
  cases X with
  | error e => exact Except.noConfusion hok
  | ok a => exact ⟨a, rfl, hok⟩

theorem foldlM_worms_nil {h w iterations : ℕ} {sinF cosF : ℚ → ℚ} {index : Grid2}
    {colors : List (List ℚ)} {worms_rot worms_stride : List ℚ}
    (hit : iterations - 1 ≠ 0) :
    ∀ (l : List ℕ) (out : Grid3),
      List.foldlM (worms_step h w iterations sinF cosF index colors worms_rot worms_stride)
        (out, ([] : List ℚ), ([] : List ℚ)) l = Except.ok (out, [], []) := by
  intro l
  induction l with
  | nil => intro out; rfl
  | cons a as ih =>
    intro out
    rw [List.foldlM_cons]
    have hstep : worms_step h w iterations sinF cosF index colors worms_rot worms_stride
        (out, ([] : List ℚ), ([] : List ℚ)) a = Except.ok (out, [], []) := by
      unfold worms_step
      rw [if_neg hit]
      rfl
    rw [hstep]
    dsimp only [Except.instMonad, Bind.bind, Except.bind]
    exact ih out

/-- C8: when `worms` returns a grid, that grid has exactly the shape of the
input grid; and with `density = 0` (so zero agents are spawned) the returned
grid is `normalize(grid * bg)` — the dimmed background with no accumulation
(the trailing float-to-float saturating conversion is the identity).  The
input is a dense `h × w × c` grid with positive spatial dimensions, and the
uniform spawn draws lie in `[0, 1)` as `tf.random_uniform` guarantees. -/
theorem C8_worms (tensor : Grid3) (h w c : ℕ) (behavior : BehaviorArg)
    (density duration stride stride_deviation bg : ℚ)
    (uy ux un ur : ℕ → ℚ) (sinF cosF sqrtF : ℚ → ℚ) (rad1 : ℚ)
    (hh : 0 < h) (hw : 0 < w) (hrect : Rect3 h w c tensor)
    (huy : ∀ i, 0 ≤ uy i ∧ uy i < 1) (hux : ∀ i, 0 ≤ ux i ∧ ux i < 1) :
    (∀ out, worms tensor h w behavior density duration stride stride_deviation bg
        uy ux un ur sinF cosF sqrtF rad1 = Except.ok out →
      dims3 out = dims3 tensor) ∧
    (density = 0 → ∀ out, worms tensor h w behavior density duration stride stride_deviation bg
        uy ux un ur sinF cosF sqrtF rad1 = Except.ok out →
      out = normalize3 (tensor.map (fun row => row.map (fun px =>
        px.map (fun x => x * bg))))) := by
  constructor
  · intro out hok
    unfold worms at hok
    cases hdist : worms_rot_dist behavior with
    | error e =>
      rw [hdist] at hok
      dsimp only [Except.instMonad, Bind.bind, Except.bind] at hok
      exact Except.noConfusion hok
    | ok dist =>
      rw [hdist] at hok
      dsimp only [Except.instMonad, Bind.bind, Pure.pure] at hok
      obtain ⟨d1, hd1, hok1⟩ := except_bind_ok hok
      cases hd1
      obtain ⟨st, hst, hok2⟩ := except_bind_ok hok1
      dsimp only [Except.pure] at hok2
      have hout : out = normalize3 st.1 := (Except.ok.inj hok2).symm
      have hrinit : Rect3 h w c (tensor.map (fun row => row.map (fun px =>
          px.map (fun x => x * bg)))) := rect_map3 _ hrect
      have hrst : Rect3 h w c st.1 :=
        foldlM_except_preserve
          (worms_step_rect (worms_colors_length hh hw hrect huy hux _)) _ _ _ hrinit hst
      rw [hout]
      have hnorm : Rect3 h w c (normalize3 st.1) := by
        unfold normalize3
        exact rect_map3 _ hrst
      rw [dims3_of_rect hnorm, dims3_of_rect hrect]
  · intro hd0 out hok
    subst hd0
    unfold worms at hok
    have hcount : (pyInt (((max w h : ℕ) : ℚ) * 0)).toNat = 0 := by
      rw [mul_zero, pyInt_zero]
      rfl
    rw [hcount] at hok
    simp only [List.range_zero, List.map_nil, List.zipWith_nil_left] at hok
    cases hdist : worms_rot_dist behavior with
    | error e =>
      rw [hdist] at hok
      dsimp only [Except.instMonad, Bind.bind, Except.bind] at hok
      exact Except.noConfusion hok
    | ok dist =>
      rw [hdist] at hok
      dsimp only [Except.instMonad, Bind.bind, Pure.pure] at hok
      obtain ⟨d1, hd1, hok1⟩ := except_bind_ok hok
      cases hd1
      obtain ⟨st, hst, hok2⟩ := except_bind_ok hok1
      dsimp only [Except.pure] at hok2
      have hout : out = normalize3 st.1 := (Except.ok.inj hok2).symm
      by_cases hit1 : (pyInt (sqrtF ((min w h : ℕ) : ℚ) * duration)).toNat = 1
      · rw [hit1, show List.range 1 = [0] from rfl, List.foldlM_cons,
          worms_step_error (by omega) _ 0] at hst
        dsimp only [Except.instMonad, Bind.bind, Except.bind] at hst
        exact Except.noConfusion hst
      · by_cases hit0 : (pyInt (sqrtF ((min w h : ℕ) : ℚ) * duration)).toNat = 0
        · rw [hit0, List.range_zero, List.foldlM_nil] at hst
          have hstEq := Except.ok.inj hst
          rw [hout, ← hstEq]
        · rw [foldlM_worms_nil (by omega) _ _] at hst
          have hstEq := Except.ok.inj hst
          rw [hout, ← hstEq]

/-- C8 witness: the 2×2 single-channel grid `t22` with `density = 0`,
`bg = 1/2`, `duration = 2` and a square-root oracle returning 1 (so the
iteration count is 2): `worms` returns the normalized dimmed background,
whose shape record equals the input's. -/
theorem C8_witness :
    dims3 (normalize3 (t22.map (fun row => row.map (fun px =>
      px.map (fun x => x * (1/2)))))) = dims3 t22 ∧
    normalize3 (t22.map (fun row => row.map (fun px => px.map (fun x => x * (1/2))))) =
      normalize3 (t22.map (fun row => row.map (fun px => px.map (fun x => x * (1/2))))) := by
  have H := C8_worms t22 2 2 1 (BehaviorArg.enumB WormBehavior.obedient) 0 2 1 (1/20) (1/2)
    (fun _ => 0) (fun _ => 0) (fun _ => 0) (fun _ => 0) (fun _ => 0) (fun _ => 0) (fun _ => 1) 0
    (by decide) (by decide) ⟨by decide, by decide, by decide⟩
    (fun _ => by norm_num) (fun _ => by norm_num)
  refine ⟨H.1 _ ?_, H.2 rfl _ ?_⟩ <;> rfl

/-- C6 counterexample: `convolve` applied to a grid with invalid shape
(`height = width = 0`, the empty grid) does not fail fast with a
configuration error: the source contains no shape validation, and the
tile / crop / convolve / normalize pipeline runs to completion, returning
the empty grid. -/
theorem C6_counterexample : convolve ConvKernel.sharpen [] 0 0 = [] := by
  decide

/-- C6 amended: the source performs no shape validation at all — for every
kernel of the catalog, `convolve` on the degenerate zero-sized grid simply
computes through the pipeline and returns the empty grid instead of raising
a configuration error (any failure on such inputs would arise inside the
external tensor library mid-computation, not from this code). -/
theorem C6_amended (k : ConvKernel) : convolve k [] 0 0 = [] := by
  cases k <;> rfl

end Noisemaker
